import Mathlib

/-!
# Early Bird breakfast ordering: identity validator and order calculator

A shallow embedding of the pure logic of the repository:

* `src/utils/luhn.js`        : `validateCustomerNumber`
* `src/services/customer.js` : `mockCustomers`, `loginCustomer`
* `src/data/products.js`     : `products`
* `src/components/OrderBuilder.js` : the closure state `orderLines`, `calculateTotals`,
  the add and remove click handlers
* `src/components/Checkout.js`     : the blueprint written by the pay handler
* `src/main.js`                    : `handleBlueprintReorder`

JavaScript strings are Lean strings, counters and ids that are integers in the source are
`Nat` (`Int` where a negative value changes the behaviour), the numbers that
`calculateTotals` multiplies and adds are IEEE 754 binary64 values (`Binary64`), a value
that may be `undefined` is an `Option`, and a thrown `TypeError` is an `Except` error.
-/

set_option autoImplicit false

namespace EarlyBird

/-! ## Identity validator (`src/utils/luhn.js`, `src/services/customer.js`) -/

/-- The array `num.replace(/\D/g, '').split('').map(Number)`: every character that is not
one of `0`..`9` is dropped, each remaining character becomes its numeric value. -/
def digitsOf (num : String) : List Nat :=
  (num.toList.filter Char.isDigit).map (fun c => c.toNat - 48)

/-- The string `num.replace(/\D/g, '')`. -/
def stripNonDigits (num : String) : String :=
  String.mk (num.toList.filter Char.isDigit)

/-- The loop `for (let i = 0; i < 7; i++) sum += digits[i] * (i % 2 === 0 ? 1 : 3)`. -/
def weightedSum (digits : List Nat) : Nat :=
  (List.range 7).foldl (fun sum i => sum + digits.getD i 0 * (if i % 2 = 0 then 1 else 3)) 0

/-- Source function `validateCustomerNumber` of `src/utils/luhn.js`. -/
def validateCustomerNumber (num : String) : Bool :=
  let digits := digitsOf num
  if digits.length ≠ 8 then false
  else
    let sum := weightedSum digits
    let check := (10 - sum % 10) % 10
    check == digits.getD 7 0

/-- A resolved customer: the values of the table `mockCustomers`. -/
structure Customer where
  name : String
  pastOrders : Nat
  deriving DecidableEq, Repr

/-- The object literal `mockCustomers`, as its list of own keys and values. -/
def mockCustomers : List (String × Customer) :=
  [ ("38429730", { name := "Anna Meier", pastOrders := 12 }),
    ("12345678", { name := "Max Mustermann", pastOrders := 3 }) ]

/-- The result object of `loginCustomer`: `{ error }` or `{ customer }`. -/
inductive LoginResult where
  | error (message : String)
  | customer (c : Customer)
  deriving DecidableEq, Repr

/-- Source function `loginCustomer` of `src/services/customer.js`. The property read
`mockCustomers[number]` is the lookup of `number` among the keys of the table. -/
def loginCustomer (number : String) : LoginResult :=
  if !validateCustomerNumber number then LoginResult.error "Invalid checksum"
  else
    match mockCustomers.lookup number with
    | none => LoginResult.error "Customer not found"
    | some customer => LoginResult.customer customer

/-- The click handler of the login button of `src/components/CustomerLogin.js`, on the
trimmed input value `num`: the message shown, or the customer passed to `onLogin`. The
test `/^\d{8}$/.test(num)` holds exactly for strings of eight digit characters. -/
def customerLoginClick (num : String) : LoginResult :=
  if num.toList.length = 8 ∧ num.toList.all Char.isDigit then loginCustomer num
  else LoginResult.error "Please enter exactly 8 digits."

/-! ## JavaScript numbers (IEEE 754 binary64, round to nearest, ties to even) -/

/-- A JavaScript number that is not negative. Every finite binary64 value is a multiple
of `2^-1074`; `finite v` is the value `v * 2^-1074`. `nonFinite` stands for `Infinity`
and `NaN`, which sums and products of non-negative numbers never leave. -/
inductive Binary64 where
  | finite (scaled : Nat)
  | nonFinite
  deriving DecidableEq, Repr

/-- The position of the leading bit of `n`, by halving (`fuel` bounds the steps). -/
def log2Fuel : Nat → Nat → Nat
  | 0, _ => 0
  | fuel + 1, n => if n < 2 then 0 else log2Fuel fuel (n / 2) + 1

/-- The floor of the binary logarithm of `n`, and `0` for `n = 0`. -/
def floorLog2 (n : Nat) : Nat := log2Fuel n n

/-- The quotient `a / b` rounded to the nearest integer, a tie going to the even one. -/
def roundHalfEven (a b : Nat) : Nat :=
  let q := a / b
  let r := a % b
  if 2 * r < b then q else if b < 2 * r then q + 1 else if q % 2 = 0 then q else q + 1

/-- The binary64 value nearest to the fraction `n / d` (`d > 0`), ties to even: this is
the value of a decimal literal such as `5.90` (`n = 59`, `d = 10`) and the rounding
applied to every exact sum and product. With `2^e <= n/d < 2^(e+1)` the spacing of the
binary64 values is `2^(e-52)`, and `2^-1074` below `2^-1022`; `t` is that spacing's
exponent plus 1074. A result of `2^1024` or more is `Infinity`. -/
@[irreducible]
def Binary64.round (n d : Nat) : Binary64 :=
  let t := floorLog2 (n * 2 ^ 1022 / d)
  let m := roundHalfEven (n * 2 ^ 1074) (d * 2 ^ t)
  let v := m * 2 ^ t
  if 2 ^ 2098 ≤ v then Binary64.nonFinite else Binary64.finite v

/-- The operator `+` on numbers: the exact sum, rounded. -/
def Binary64.add : Binary64 → Binary64 → Binary64
  | Binary64.finite a, Binary64.finite b => Binary64.round (a + b) (2 ^ 1074)
  | _, _ => Binary64.nonFinite

/-- The operator `*` on numbers: the exact product, rounded. -/
def Binary64.mul : Binary64 → Binary64 → Binary64
  | Binary64.finite a, Binary64.finite b => Binary64.round (a * b) (2 ^ 2148)
  | _, _ => Binary64.nonFinite

instance : Add Binary64 := ⟨Binary64.add⟩

instance : Mul Binary64 := ⟨Binary64.mul⟩

instance : NatCast Binary64 := ⟨fun n => Binary64.round n 1⟩

instance : Zero Binary64 := ⟨Binary64.finite 0⟩

/-- The number is finite and its value is exactly the fraction `n / d`. -/
def Binary64.isRatio (x : Binary64) (n d : Nat) : Prop :=
  match x with
  | Binary64.finite v => v * d = n * 2 ^ 1074
  | Binary64.nonFinite => False

instance (x : Binary64) (n d : Nat) : Decidable (x.isRatio n d) := by
  cases x <;> unfold Binary64.isRatio <;> infer_instance

/-! ## Catalog (`src/data/products.js`) -/

/-- The two values of the field `type` of a catalog entry. -/
inductive ProductType where
  | prepackaged
  | simple
  deriving DecidableEq, Repr

/-- A catalog entry. The price is the number that the decimal literal of the source
denotes. -/
structure Product where
  id : Nat
  name : String
  type : ProductType
  calories : Nat
  price : Binary64
  deriving DecidableEq

/-- The array `products` of `src/data/products.js`. -/
def products : List Product :=
  [ { id := 1, name := "Croissant + Coffee", type := .prepackaged, calories := 420, price := Binary64.round 59 10 },
    { id := 2, name := "Muesli Bowl", type := .prepackaged, calories := 380, price := Binary64.round 65 10 },
    { id := 3, name := "Orange Juice", type := .prepackaged, calories := 110, price := Binary64.round 29 10 },
    { id := 4, name := "Croissant", type := .simple, calories := 250, price := Binary64.round 22 10 },
    { id := 5, name := "Coffee", type := .simple, calories := 5, price := Binary64.round 35 10 },
    { id := 6, name := "Ham", type := .simple, calories := 80, price := Binary64.round 12 10 },
    { id := 7, name := "Butter", type := .simple, calories := 100, price := Binary64.round 8 10 } ]

/-- The lookup `products.find(p => p.id === id)`; `none` is `undefined`. -/
def findProduct (id : Nat) : Option Product :=
  products.find? (fun p => p.id == id)

/-! ## Order calculator (`src/components/OrderBuilder.js`) -/

/-- The only exception the modelled code can throw: a property read on `undefined`. -/
inductive JsError where
  | typeError
  deriving DecidableEq, Repr

/-- An element `{ product, amount }` of the array `orderLines`. The field `product` is
`none` when it holds `undefined`, which is what a failed catalog lookup stores. -/
structure OrderLine where
  product : Option Product
  amount : Nat
  deriving DecidableEq

/-- The order line `{ product: p, amount: n }` for a product that is present. -/
def OrderLine.of (pn : Product × Nat) : OrderLine :=
  { product := some pn.1, amount := pn.2 }

/-- The product id of a line, `none` when the product is `undefined`. -/
def OrderLine.productId (l : OrderLine) : Option Nat :=
  l.product.map (fun p => p.id)

/-- The object `{ totalCal, totalPrice }` returned by `calculateTotals`. -/
structure Totals where
  totalCal : Binary64
  totalPrice : Binary64
  deriving DecidableEq

/-- The initial value of the closure variable `orderLines` of `OrderBuilder`:
`initialOrderLines || (baseProduct.type === 'prepackaged' ? [{ product: baseProduct, amount: 1 }] : [])`.
An array, also an empty one, is truthy. -/
def initialLines (baseProduct : Product) (initialOrderLines : Option (List OrderLine)) :
    List OrderLine :=
  match initialOrderLines with
  | some lines => lines
  | none =>
    if baseProduct.type = ProductType.prepackaged then [{ product := some baseProduct, amount := 1 }]
    else []

/-- The call `orderLines.reduce((sum, line) => sum + f(line.product) * line.amount, 0)`;
reading a field of an `undefined` product throws. -/
def reduceLines {α : Type} [Add α] [Mul α] [NatCast α] (f : Product → α) (init : α)
    (orderLines : List OrderLine) : Except JsError α :=
  orderLines.foldlM
    (fun sum line =>
      match line.product with
      | none => Except.error JsError.typeError
      | some p => Except.ok (sum + f p * (line.amount : α)))
    init

/-- Source function `calculateTotals` of `OrderBuilder`. The second component of the
result is the closure variable `orderLines` after the call. -/
def calculateTotals (orderLines : List OrderLine) : Except JsError (Totals × List OrderLine) :=
  match reduceLines (fun p => (p.calories : Binary64)) 0 orderLines with
  | Except.error e => Except.error e
  | Except.ok totalCal =>
    match reduceLines (fun p => p.price) 0 orderLines with
    | Except.error e => Except.error e
    | Except.ok totalPrice => Except.ok ({ totalCal := totalCal, totalPrice := totalPrice }, orderLines)

/-- The ids of the rendered add buttons: one button per catalog product of type `simple`,
carrying `data-id = p.id`. -/
def addButtonIds : List Nat :=
  (products.filter (fun p => p.type == ProductType.simple)).map (fun p => p.id)

/-- The search `orderLines.find(l => l.product.id === id)`, as the position of the first
match. The callback throws on a line whose product is `undefined`. -/
def findLineIndex (id : Nat) : List OrderLine → Except JsError (Option Nat)
  | [] => Except.ok none
  | l :: ls =>
    match l.product with
    | none => Except.error JsError.typeError
    | some p =>
      if p.id = id then Except.ok (some 0)
      else
        match findLineIndex id ls with
        | Except.error e => Except.error e
        | Except.ok none => Except.ok none
        | Except.ok (some i) => Except.ok (some (i + 1))

/-- The update `existing.amount += 1` on the line at position `i`. -/
def incrementAt : Nat → List OrderLine → List OrderLine
  | _, [] => []
  | 0, l :: ls => { l with amount := l.amount + 1 } :: ls
  | i + 1, l :: ls => l :: incrementAt i ls

/-- The click handler of an add button with `data-id = id`, up to the call of `render`:
the new value of `orderLines`. -/
def addItem (id : Nat) (orderLines : List OrderLine) : Except JsError (List OrderLine) :=
  let product := findProduct id
  match findLineIndex id orderLines with
  | Except.error e => Except.error e
  | Except.ok (some i) => Except.ok (incrementAt i orderLines)
  | Except.ok none => Except.ok (orderLines ++ [{ product := product, amount := 1 }])

/-- A sequence of add clicks, in order. -/
def addItems : List Nat → List OrderLine → Except JsError (List OrderLine)
  | [], orderLines => Except.ok orderLines
  | id :: ids, orderLines =>
    match addItem id orderLines with
    | Except.error e => Except.error e
    | Except.ok next => addItems ids next

/-- The call `orderLines.splice(index, 1)`: a negative start counts from the end, the
start is clamped to `0..length`, and at most one element is deleted. -/
def splice1 (index : Int) (orderLines : List OrderLine) : List OrderLine :=
  let len : Int := orderLines.length
  let actualStart : Int := if index < 0 then max (len + index) 0 else min index len
  let deleteCount : Int := min (max 1 0) (len - actualStart)
  orderLines.take actualStart.toNat ++ orderLines.drop (actualStart.toNat + deleteCount.toNat)

/-- The click handler of a remove button with `data-index = index`, up to the call of
`render`: the new value of `orderLines`. The handler has no failing path. -/
def removeItem (index : Int) (orderLines : List OrderLine) : Except JsError (List OrderLine) :=
  Except.ok (splice1 index orderLines)

/-! ## Blueprints (`src/components/Checkout.js`, `src/main.js`) -/

/-- An element `{ id, amount }` of a stored blueprint. -/
structure BlueprintLine where
  id : Nat
  amount : Nat
  deriving DecidableEq

/-- A stored blueprint `{ name, orderLines }`. Writing it with `JSON.stringify` and
reading it with `JSON.parse` returns the same strings and integers. -/
structure Blueprint where
  name : String
  orderLines : List BlueprintLine
  deriving DecidableEq

/-- The call `orderLines.map(l => ({ id: l.product.id, amount: l.amount }))` of the pay
handler of `Checkout`; the callback throws on a line whose product is `undefined`. -/
def blueprintLines : List OrderLine → Except JsError (List BlueprintLine)
  | [] => Except.ok []
  | l :: ls =>
    match l.product with
    | none => Except.error JsError.typeError
    | some p =>
      match blueprintLines ls with
      | Except.error e => Except.error e
      | Except.ok rest => Except.ok ({ id := p.id, amount := l.amount } :: rest)

/-- The blueprint built by the pay handler of `Checkout` when the save box is checked.
The name is a parameter (the source derives it from the clock). -/
def saveBlueprint (name : String) (orderLines : List OrderLine) : Except JsError Blueprint :=
  match blueprintLines orderLines with
  | Except.error e => Except.error e
  | Except.ok lines => Except.ok { name := name, orderLines := lines }

/-- The mapping of `handleBlueprintReorder`:
`blueprint.orderLines.map(line => ({ product: products.find(p => p.id === line.id), amount: line.amount }))`. -/
def reconstructOrderLines (blueprint : Blueprint) : List OrderLine :=
  blueprint.orderLines.map (fun line => { product := findProduct line.id, amount := line.amount })

/-- Source function `handleBlueprintReorder` of `src/main.js`: `none` when the handler
returns at `if (!baseProduct) return`, otherwise the arguments passed to
`showOrderBuilderWithLines`. -/
def handleBlueprintReorder (blueprint : Blueprint) : Option (Product × List OrderLine) :=
  let orderLines := reconstructOrderLines blueprint
  match orderLines.head?.bind (fun l => l.product) with
  | none => none
  | some baseProduct => some (baseProduct, orderLines)

/-- The component `OrderBuilder` up to the end of its first `render()`: the initial
`orderLines` and the totals that `render` computes from them. -/
def OrderBuilder (baseProduct : Product) (initialOrderLines : Option (List OrderLine)) :
    Except JsError (Totals × List OrderLine) :=
  calculateTotals (initialLines baseProduct initialOrderLines)

/-- Source function `showOrderBuilder` of `src/main.js`: `OrderBuilder` is called without
`initialOrderLines`. -/
def showOrderBuilder (baseProduct : Product) : Except JsError (Totals × List OrderLine) :=
  OrderBuilder baseProduct none

/-- Source function `handleProductSelection` of `src/main.js`, called with the product
selected in the catalog. -/
def handleProductSelection (product : Product) : Except JsError (Totals × List OrderLine) :=
  showOrderBuilder product

/-- The numeric value of the character at position `i` of `s`. -/
def digitAt (s : String) (i : Nat) : Nat :=
  (s.toList.getD i '0').toNat - 48

/-- The string consists of exactly eight characters, each one of `0`..`9`. -/
def IsEightDigits (s : String) : Prop :=
  s.toList.length = 8 ∧ ∀ c ∈ s.toList, c.isDigit = true

instance (s : String) : Decidable (IsEightDigits s) := by
  unfold IsEightDigits; infer_instance

/-! ## Specification-level notions used to state the properties -/

/-- The quantity of the line for product `id`: the amount of the first line with that
product id, `0` when there is none. -/
def quantityOf (id : Nat) (orderLines : List OrderLine) : Nat :=
  match orderLines.find? (fun l => l.productId == some id) with
  | some l => l.amount
  | none => 0

/-- The sum of `calories * quantity` as the source computes it: in binary64, from `0`,
line by line from the left. -/
def binary64CalorieSum (ps : List (Product × Nat)) : Binary64 :=
  ps.foldl (fun sum pn => sum + (pn.1.calories : Binary64) * (pn.2 : Binary64)) 0

/-- The sum of `price * quantity` as the source computes it: in binary64, from `0`,
line by line from the left. -/
def binary64PriceSum (ps : List (Product × Nat)) : Binary64 :=
  ps.foldl (fun sum pn => sum + pn.1.price * (pn.2 : Binary64)) 0

/-- One add click for product `p`, on an order given as (product, quantity) pairs: the
first pair with the id of `p` gets quantity + 1, or `(p, 1)` is appended. -/
def mergeAdd (p : Product) : List (Product × Nat) → List (Product × Nat)
  | [] => [(p, 1)]
  | q :: qs => if q.1.id = p.id then (q.1, q.2 + 1) :: qs else q :: mergeAdd p qs

/-- A stored blueprint whose second line names product id 99, which the catalog does
not have. -/
def staleBlueprint : Blueprint :=
  { name := "Blueprint #0001", orderLines := [{ id := 1, amount := 1 }, { id := 99, amount := 2 }] }

/-- A stored blueprint whose first line names product id 99. -/
def staleFirstBlueprint : Blueprint :=
  { name := "Blueprint #0002", orderLines := [{ id := 99, amount := 2 }, { id := 1, amount := 1 }] }

/-- A click in the order builder: an add button (with its `data-id`) or a remove button
(with its `data-index`). -/
inductive Action where
  | add (id : Nat)
  | remove (index : Int)
  deriving DecidableEq, Repr

/-- The button of the action is on the page rendered for `orderLines`: add buttons exist
for the simple catalog products, remove buttons for the positions `0 .. length - 1`. -/
def Action.rendered (orderLines : List OrderLine) : Action → Prop
  | Action.add id => id ∈ addButtonIds
  | Action.remove index => 0 ≤ index ∧ index < (orderLines.length : Int)

instance (orderLines : List OrderLine) (a : Action) : Decidable (a.rendered orderLines) := by
  cases a <;> unfold Action.rendered <;> infer_instance

/-- The effect of a click on `orderLines`. -/
def step : Action → List OrderLine → Except JsError (List OrderLine)
  | Action.add id, orderLines => addItem id orderLines
  | Action.remove index, orderLines => removeItem index orderLines

/-- The order states reachable from the seeding of `OrderBuilder` (no initial lines
supplied) by clicks on rendered buttons. -/
inductive Reachable : List OrderLine → Prop where
  | seed (baseProduct : Product) : Reachable (initialLines baseProduct none)
  | click (a : Action) (orderLines next : List OrderLine) :
      Reachable orderLines → a.rendered orderLines → step a orderLines = Except.ok next →
      Reachable next

/-! ## Lemmas on the validator -/

theorem filter_isDigit_of_all (cs : List Char) (h : ∀ c ∈ cs, c.isDigit = true) :
    cs.filter Char.isDigit = cs := by
  rw [List.filter_eq_self]; exact h

theorem digitsOf_of_digits (s : String) (h : ∀ c ∈ s.toList, c.isDigit = true) :
    digitsOf s = s.toList.map (fun c => c.toNat - 48) := by
  unfold digitsOf; rw [filter_isDigit_of_all _ h]

theorem digitsOf_stripNonDigits (s : String) : digitsOf (stripNonDigits s) = digitsOf s := by
  simp [digitsOf, stripNonDigits, List.filter_filter]

theorem validateCustomerNumber_strip (s : String) :
    validateCustomerNumber (stripNonDigits s) = validateCustomerNumber s := by
  simp only [validateCustomerNumber, digitsOf_stripNonDigits]

theorem stripNonDigits_length (s : String) :
    (stripNonDigits s).length = (digitsOf s).length := by
  simp [stripNonDigits, digitsOf, String.length]

theorem validateCustomerNumber_false_of_length (s : String)
    (h : (stripNonDigits s).length ≠ 8) : validateCustomerNumber s = false := by
  rw [stripNonDigits_length] at h
  simp [validateCustomerNumber, h]

theorem loginCustomer_of_invalid (s : String) (h : validateCustomerNumber s = false) :
    loginCustomer s = LoginResult.error "Invalid checksum" := by
  simp [loginCustomer, h]

theorem loginCustomer_of_valid (s : String) (h : validateCustomerNumber s = true) :
    loginCustomer s =
      match mockCustomers.lookup s with
      | none => LoginResult.error "Customer not found"
      | some customer => LoginResult.customer customer := by
  simp [loginCustomer, h]

/-! ## Lemmas on the order calculator -/

theorem reduceLines_cons_some {α : Type} [Add α] [Mul α] [NatCast α] (f : Product → α)
    (init : α) (p : Product) (n : Nat) (ls : List OrderLine) :
    reduceLines f init ({ product := some p, amount := n } :: ls)
      = reduceLines f (init + f p * (n : α)) ls := by
  simp only [reduceLines, List.foldlM]
  rfl

theorem reduceLines_of {α : Type} [Add α] [Mul α] [NatCast α] (f : Product → α) (init : α)
    (ps : List (Product × Nat)) :
    reduceLines f init (ps.map OrderLine.of)
      = Except.ok (ps.foldl (fun sum pn => sum + f pn.1 * (pn.2 : α)) init) := by
  induction ps generalizing init with
  | nil => rfl
  | cons pn ps ih =>
    simp only [List.map_cons, OrderLine.of, List.foldl_cons]
    rw [reduceLines_cons_some]
    exact ih (init + f pn.1 * (pn.2 : α))

theorem calculateTotals_of (ps : List (Product × Nat)) :
    calculateTotals (ps.map OrderLine.of)
      = Except.ok
          ({ totalCal := binary64CalorieSum ps, totalPrice := binary64PriceSum ps },
           ps.map OrderLine.of) := by
  unfold calculateTotals
  rw [reduceLines_of (fun p => (p.calories : Binary64)) 0 ps,
    reduceLines_of (fun p => p.price) 0 ps]
  rfl

/-! ## Lemmas on binary64 arithmetic with integers below `2^53` -/

theorem log2Fuel_le (fuel n k : Nat) (h : n < 2 ^ (k + 1)) : log2Fuel fuel n ≤ k := by
  induction fuel generalizing n k with
  | zero => simp [log2Fuel]
  | succ fuel ih =>
    unfold log2Fuel
    by_cases h2 : n < 2
    · simp [h2]
    · simp only [h2, if_false]
      cases k with
      | zero => simp at h; omega
      | succ k =>
        have hhalf : n / 2 < 2 ^ (k + 1) := by
          rw [Nat.div_lt_iff_lt_mul (by decide)]
          rw [pow_succ] at h
          exact h
        have := ih (n / 2) k hhalf
        omega

theorem roundHalfEven_mul (q b : Nat) (hb : 0 < b) : roundHalfEven (q * b) b = q := by
  simp [roundHalfEven, Nat.mul_div_cancel _ hb, hb]

theorem round_int (a d : Nat) (hd : 0 < d) (ha : a < 2 ^ 53) :
    Binary64.round (a * d) d = Binary64.finite (a * 2 ^ 1074) := by
  have hq : a * d * 2 ^ 1022 / d = a * 2 ^ 1022 := by
    rw [Nat.mul_right_comm, Nat.mul_div_cancel _ hd]
  have hlt : a * 2 ^ 1022 < 2 ^ (1074 + 1) := by
    calc a * 2 ^ 1022 < 2 ^ 53 * 2 ^ 1022 := Nat.mul_lt_mul_of_pos_right ha (by positivity)
      _ = 2 ^ (1074 + 1) := by rw [← pow_add]
  have ht : floorLog2 (a * 2 ^ 1022) ≤ 1074 := log2Fuel_le _ _ _ hlt
  have hbound : ¬ (2 ^ 2098 ≤ a * 2 ^ 1074) := by
    have h1 : a * 2 ^ 1074 < 2 ^ 53 * 2 ^ 1074 :=
      Nat.mul_lt_mul_of_pos_right ha (by positivity)
    have h2 : (2 : Nat) ^ 53 * 2 ^ 1074 ≤ 2 ^ 2098 := by
      rw [← pow_add]; exact Nat.pow_le_pow_right (by decide) (by decide)
    exact Nat.not_le.mpr (Nat.lt_of_lt_of_le h1 h2)
  unfold Binary64.round
  simp only [hq]
  generalize floorLog2 (a * 2 ^ 1022) = t at ht
  obtain ⟨s, hs⟩ : ∃ s, 1074 = t + s := ⟨1074 - t, by omega⟩
  have hsplit : a * d * 2 ^ 1074 = (a * 2 ^ s) * (d * 2 ^ t) := by
    rw [hs, pow_add]; ring
  have hpos : 0 < d * 2 ^ t := by positivity
  have hv : a * 2 ^ s * 2 ^ t = a * 2 ^ 1074 := by
    rw [hs, pow_add]; ring
  rw [hsplit, roundHalfEven_mul _ _ hpos, hv, if_neg hbound]

theorem natCast_exact (a : Nat) (ha : a < 2 ^ 53) :
    ((a : Nat) : Binary64) = Binary64.finite (a * 2 ^ 1074) := by
  have h := round_int a 1 (by decide) ha
  rw [Nat.mul_one] at h
  exact h

theorem add_finite (a b : Nat) :
    Binary64.finite a + Binary64.finite b = Binary64.round (a + b) (2 ^ 1074) := by
  show Binary64.add (Binary64.finite a) (Binary64.finite b) = _
  rw [Binary64.add]

theorem mul_finite (a b : Nat) :
    Binary64.finite a * Binary64.finite b = Binary64.round (a * b) (2 ^ 2148) := by
  show Binary64.mul (Binary64.finite a) (Binary64.finite b) = _
  rw [Binary64.mul]

theorem add_exact (a b : Nat) (h : a + b < 2 ^ 53) :
    Binary64.finite (a * 2 ^ 1074) + Binary64.finite (b * 2 ^ 1074)
      = Binary64.finite ((a + b) * 2 ^ 1074) := by
  rw [add_finite, ← Nat.add_mul]
  exact round_int (a + b) (2 ^ 1074) (by positivity) h

theorem mul_exact (a b : Nat) (h : a * b < 2 ^ 53) :
    Binary64.finite (a * 2 ^ 1074) * Binary64.finite (b * 2 ^ 1074)
      = Binary64.finite (a * b * 2 ^ 1074) := by
  rw [mul_finite]
  have e : a * 2 ^ 1074 * (b * 2 ^ 1074) = a * b * 2 ^ 2148 := by
    have h2 : (2 : Nat) ^ 2148 = 2 ^ 1074 * 2 ^ 1074 := by rw [← pow_add]
    rw [h2]; ring
  rw [e]
  exact round_int (a * b) (2 ^ 2148) (by positivity) h

theorem foldl_calories_exact (ps : List (Product × Nat)) (acc : Nat)
    (hfac : ∀ pn ∈ ps, pn.1.calories < 2 ^ 53 ∧ pn.2 < 2 ^ 53)
    (hsum : acc + (ps.map (fun pn => pn.1.calories * pn.2)).sum < 2 ^ 53) :
    ps.foldl (fun sum pn => sum + (pn.1.calories : Binary64) * (pn.2 : Binary64))
        (Binary64.finite (acc * 2 ^ 1074))
      = Binary64.finite ((acc + (ps.map (fun pn => pn.1.calories * pn.2)).sum) * 2 ^ 1074) := by
  induction ps generalizing acc with
  | nil => simp only [List.foldl_nil, List.map_nil, List.sum_nil, Nat.add_zero]
  | cons pn ps ih =>
    simp only [List.map_cons, List.sum_cons] at hsum
    obtain ⟨hc, ha⟩ := hfac pn (List.mem_cons_self _ _)
    simp only [List.foldl_cons, List.map_cons, List.sum_cons]
    rw [natCast_exact _ hc, natCast_exact _ ha, mul_exact _ _ (by omega),
      add_exact _ _ (by omega)]
    rw [ih (acc + pn.1.calories * pn.2) (fun x hx => hfac x (List.mem_cons_of_mem _ hx))
      (by omega)]
    rw [Nat.add_assoc]

theorem catalog_single_line_sums (p : Product) (hp : p ∈ products) :
    binary64CalorieSum [(p, 1)] = (p.calories : Binary64)
      ∧ binary64PriceSum [(p, 1)] = p.price := by
  simp only [products, List.mem_cons, List.mem_singleton, List.not_mem_nil, or_false] at hp
  rcases hp with rfl | rfl | rfl | rfl | rfl | rfl | rfl
  all_goals exact ⟨by decide!, by decide!⟩

theorem binary64CalorieSum_exact (ps : List (Product × Nat))
    (hfac : ∀ pn ∈ ps, pn.1.calories < 2 ^ 53 ∧ pn.2 < 2 ^ 53)
    (hsum : (ps.map (fun pn => pn.1.calories * pn.2)).sum < 2 ^ 53) :
    binary64CalorieSum ps
      = Binary64.finite ((ps.map (fun pn => pn.1.calories * pn.2)).sum * 2 ^ 1074) := by
  have h := foldl_calories_exact ps 0 hfac (by omega)
  rw [Nat.zero_mul, Nat.zero_add] at h
  exact h

theorem findProduct_id {id : Nat} {p : Product} (h : findProduct id = some p) : p.id = id := by
  have := List.find?_some h
  simpa using this

theorem findProduct_mem {id : Nat} {p : Product} (h : findProduct id = some p) :
    p ∈ products :=
  List.mem_of_find?_eq_some h

theorem findProduct_of_button {id : Nat} (h : id ∈ addButtonIds) :
    ∃ p, findProduct id = some p ∧ p.id = id := by
  have hall : ∀ i ∈ addButtonIds, (findProduct i).map (fun p => p.id) = some i := by decide
  have hi := hall id h
  cases hf : findProduct id with
  | none => rw [hf] at hi; simp at hi
  | some p => exact ⟨p, rfl, findProduct_id hf⟩

theorem findLineIndex_of (p : Product) (qs : List (Product × Nat)) :
    (findLineIndex p.id (qs.map OrderLine.of) = Except.ok none
        ∧ mergeAdd p qs = qs ++ [(p, 1)])
      ∨ ∃ i, findLineIndex p.id (qs.map OrderLine.of) = Except.ok (some i)
          ∧ incrementAt i (qs.map OrderLine.of) = (mergeAdd p qs).map OrderLine.of := by
  induction qs with
  | nil => left; simp [findLineIndex, mergeAdd]
  | cons q qs ih =>
    by_cases h : q.1.id = p.id
    · right
      exact ⟨0, by simp [findLineIndex, OrderLine.of, h], by simp [incrementAt, mergeAdd, OrderLine.of, h]⟩
    · rcases ih with ⟨h1, h2⟩ | ⟨i, h1, h2⟩
      · left
        refine ⟨?_, by simp [mergeAdd, h, h2]⟩
        simp only [List.map_cons, findLineIndex, OrderLine.of, h, if_false]
        rw [h1]
      · right
        refine ⟨i + 1, ?_, ?_⟩
        · simp only [List.map_cons, findLineIndex, OrderLine.of, h, if_false]
          rw [h1]
        · simp only [List.map_cons, incrementAt, mergeAdd, h, if_false]
          rw [h2]

theorem addItem_of {id : Nat} {p : Product} (hp : findProduct id = some p)
    (qs : List (Product × Nat)) :
    addItem id (qs.map OrderLine.of) = Except.ok ((mergeAdd p qs).map OrderLine.of) := by
  have hid := findProduct_id hp
  subst hid
  rcases findLineIndex_of p qs with ⟨h1, h2⟩ | ⟨i, h1, h2⟩
  · simp only [addItem, h1, h2, hp]; simp [OrderLine.of]
  · simp only [addItem, h1, h2]

theorem mergeAdd_ids_nodup (p : Product) (qs : List (Product × Nat))
    (h : (qs.map (fun q => q.1.id)).Nodup) :
    ((mergeAdd p qs).map (fun q => q.1.id)).Nodup := by
  induction qs with
  | nil => simp [mergeAdd]
  | cons q qs ih =>
    by_cases hq : q.1.id = p.id
    · simpa [mergeAdd, hq] using h
    · simp only [List.map_cons, List.nodup_cons] at h
      simp only [mergeAdd, hq, if_false, List.map_cons, List.nodup_cons]
      refine ⟨?_, ih h.2⟩
      intro hmem
      have hsub : ∀ x ∈ (mergeAdd p qs).map (fun q => q.1.id),
          x = p.id ∨ x ∈ qs.map (fun q => q.1.id) := by
        clear ih h hmem hq
        induction qs with
        | nil => intro x hx; simp [mergeAdd] at hx; exact Or.inl hx
        | cons r rs ihr =>
          intro x hx
          by_cases hr : r.1.id = p.id
          · simp only [mergeAdd, hr, if_true, List.map_cons, List.mem_cons] at hx
            right; simpa [hr] using hx
          · simp only [mergeAdd, hr, if_false, List.map_cons, List.mem_cons] at hx
            rcases hx with hx | hx
            · right; simp [hx]
            · rcases ihr x hx with h1 | h1
              · exact Or.inl h1
              · right; simp only [List.map_cons, List.mem_cons]; exact Or.inr h1
      rcases hsub _ hmem with h1 | h1
      · exact hq h1
      · exact h.1 h1

theorem mergeAdd_amount_pos (p : Product) (qs : List (Product × Nat))
    (h : ∀ q ∈ qs, 1 ≤ q.2) : ∀ q ∈ mergeAdd p qs, 1 ≤ q.2 := by
  induction qs with
  | nil => intro q hq; simp [mergeAdd] at hq; simp [hq]
  | cons r rs ih =>
    intro q hq
    by_cases hr : r.1.id = p.id
    · simp only [mergeAdd, hr, if_true, List.mem_cons] at hq
      rcases hq with hq | hq
      · simp [hq]
      · exact h q (List.mem_cons_of_mem _ hq)
    · simp only [mergeAdd, hr, if_false, List.mem_cons] at hq
      rcases hq with hq | hq
      · exact h q (by simp [hq])
      · exact ih (fun x hx => h x (List.mem_cons_of_mem _ hx)) q hq

theorem quantityOf_cons (id : Nat) (l : OrderLine) (ls : List OrderLine) :
    quantityOf id (l :: ls)
      = if l.productId = some id then l.amount else quantityOf id ls := by
  by_cases h : l.productId = some id
  · simp [quantityOf, List.find?_cons, h]
  · simp [quantityOf, List.find?_cons, h]

theorem quantityOf_mergeAdd (p : Product) (id : Nat) (qs : List (Product × Nat)) :
    quantityOf id ((mergeAdd p qs).map OrderLine.of)
      = quantityOf id (qs.map OrderLine.of) + (if id = p.id then 1 else 0) := by
  induction qs with
  | nil =>
    by_cases h : id = p.id
    · simp [mergeAdd, quantityOf, OrderLine.of, OrderLine.productId, h]
    · have h2 : ¬ p.id = id := fun e => h e.symm
      simp [mergeAdd, quantityOf, OrderLine.of, OrderLine.productId, h, h2]
  | cons r rs ih =>
    by_cases hr : r.1.id = p.id
    · by_cases h : id = p.id
      · simp [mergeAdd, quantityOf_cons, OrderLine.of, OrderLine.productId, h, hr]
      · have h2 : ¬ p.id = id := fun e => h e.symm
        simp [mergeAdd, quantityOf_cons, OrderLine.of, OrderLine.productId, h, hr, h2]
    · by_cases h : r.1.id = id
      · have h3 : ¬ id = p.id := fun e => hr (h.trans e)
        simp [mergeAdd, quantityOf_cons, OrderLine.of, OrderLine.productId, h, hr, h3]
      · simp only [mergeAdd, hr, if_false, List.map_cons, quantityOf_cons]
        simp only [OrderLine.of, OrderLine.productId, Option.map_some', Option.some.injEq, h,
          if_false]
        exact ih

theorem lines_eq_map_of (lines : List OrderLine) (h : ∀ l ∈ lines, l.product ≠ none) :
    ∃ qs : List (Product × Nat), lines = qs.map OrderLine.of := by
  induction lines with
  | nil => exact ⟨[], rfl⟩
  | cons l ls ih =>
    obtain ⟨qs, hqs⟩ := ih (fun x hx => h x (List.mem_cons_of_mem _ hx))
    have hl := h l (List.mem_cons_self _ _)
    obtain ⟨prod, amt⟩ := l
    cases prod with
    | none => exact absurd rfl hl
    | some p => exact ⟨(p, amt) :: qs, by simp [OrderLine.of, hqs]⟩

theorem productId_map_of (qs : List (Product × Nat)) :
    (qs.map OrderLine.of).map OrderLine.productId = (qs.map (fun q => q.1.id)).map some := by
  simp [OrderLine.of, OrderLine.productId, Function.comp_def]

theorem nodup_productId_of (qs : List (Product × Nat)) :
    ((qs.map OrderLine.of).map OrderLine.productId).Nodup ↔ (qs.map (fun q => q.1.id)).Nodup := by
  rw [productId_map_of]
  exact List.nodup_map_iff (Option.some_injective Nat)

theorem product_ne_none_of (qs : List (Product × Nat)) :
    ∀ l ∈ qs.map OrderLine.of, l.product ≠ none := by
  intro l hl
  obtain ⟨q, _, rfl⟩ := List.mem_map.mp hl
  simp [OrderLine.of]

theorem addItems_of (ids : List Nat) (hids : ∀ id ∈ ids, id ∈ addButtonIds)
    (qs : List (Product × Nat)) :
    ∃ rs : List (Product × Nat),
      addItems ids (qs.map OrderLine.of) = Except.ok (rs.map OrderLine.of)
      ∧ ((qs.map (fun q => q.1.id)).Nodup → (rs.map (fun q => q.1.id)).Nodup)
      ∧ (∀ id, quantityOf id (rs.map OrderLine.of)
            = quantityOf id (qs.map OrderLine.of) + ids.count id)
      ∧ ((∀ q ∈ qs, 1 ≤ q.2) → ∀ q ∈ rs, 1 ≤ q.2) := by
  induction ids generalizing qs with
  | nil => exact ⟨qs, rfl, id, by simp, id⟩
  | cons i ids ih =>
    obtain ⟨p, hp, hpid⟩ := findProduct_of_button (hids i (List.mem_cons_self _ _))
    obtain ⟨rs, hrun, hnd, hq, hpos⟩ :=
      ih (fun x hx => hids x (List.mem_cons_of_mem _ hx)) (mergeAdd p qs)
    refine ⟨rs, ?_, ?_, ?_, ?_⟩
    · simp only [addItems, addItem_of hp qs]
      exact hrun
    · exact fun h => hnd (mergeAdd_ids_nodup p qs h)
    · intro id
      rw [hq id, quantityOf_mergeAdd, hpid, List.count_cons]
      by_cases h : id = i
      · subst h; simp; omega
      · have h2 : ¬ i = id := fun e => h e.symm
        simp [h, h2]
    · exact fun h => hpos (mergeAdd_amount_pos p qs h)

theorem splice1_of_ge (lines : List OrderLine) (i : Nat) (h : lines.length ≤ i) :
    splice1 (i : Int) lines = lines := by
  have h1 : ¬ ((i : Int) < 0) := by omega
  have h2 : min (i : Int) (lines.length : Int) = (lines.length : Int) := by omega
  simp only [splice1, h1, if_false, h2]
  have h3 : min (max (1 : Int) 0) ((lines.length : Int) - (lines.length : Int)) = 0 := by omega
  rw [h3]
  simp

theorem splice1_of_lt (lines : List OrderLine) (i : Nat) (h : i < lines.length) :
    splice1 (i : Int) lines = lines.take i ++ lines.drop (i + 1) := by
  have h1 : ¬ ((i : Int) < 0) := by omega
  have h2 : min (i : Int) (lines.length : Int) = (i : Int) := by omega
  simp only [splice1, h1, if_false, h2]
  have h3 : min (max (1 : Int) 0) ((lines.length : Int) - (i : Int)) = 1 := by omega
  rw [h3]
  simp

theorem splice1_mem (index : Int) (lines : List OrderLine) :
    ∀ l ∈ splice1 index lines, l ∈ lines := by
  intro l hl
  simp only [splice1, List.mem_append] at hl
  rcases hl with hl | hl
  · exact List.mem_of_mem_take hl
  · exact List.mem_of_mem_drop hl

theorem addItem_keeps_amount_pos (id : Nat) (hid : id ∈ addButtonIds) (lines : List OrderLine)
    (hprod : ∀ l ∈ lines, l.product ≠ none) (hpos : ∀ l ∈ lines, 1 ≤ l.amount) :
    ∃ next, addItem id lines = Except.ok next
      ∧ (∀ l ∈ next, l.product ≠ none) ∧ (∀ l ∈ next, 1 ≤ l.amount) := by
  obtain ⟨qs, rfl⟩ := lines_eq_map_of lines hprod
  obtain ⟨p, hp, _⟩ := findProduct_of_button hid
  refine ⟨_, addItem_of hp qs, product_ne_none_of _, ?_⟩
  have hq : ∀ q ∈ qs, 1 ≤ q.2 := fun q hq => hpos (OrderLine.of q) (List.mem_map_of_mem _ hq)
  intro l hl
  obtain ⟨q, hqm, rfl⟩ := List.mem_map.mp hl
  exact mergeAdd_amount_pos p qs hq q hqm

theorem step_keeps_amount_pos (a : Action) (lines : List OrderLine) (ha : a.rendered lines)
    (hprod : ∀ l ∈ lines, l.product ≠ none) (hpos : ∀ l ∈ lines, 1 ≤ l.amount) :
    ∃ next, step a lines = Except.ok next
      ∧ (∀ l ∈ next, l.product ≠ none) ∧ (∀ l ∈ next, 1 ≤ l.amount) := by
  cases a with
  | add id => exact addItem_keeps_amount_pos id ha lines hprod hpos
  | remove index =>
    exact ⟨splice1 index lines, rfl,
      fun l hl => hprod l (splice1_mem index lines l hl),
      fun l hl => hpos l (splice1_mem index lines l hl)⟩

theorem reachable_inv (lines : List OrderLine) (h : Reachable lines) :
    (∀ l ∈ lines, l.product ≠ none) ∧ (∀ l ∈ lines, 1 ≤ l.amount) := by
  induction h with
  | seed baseProduct =>
    by_cases hb : baseProduct.type = ProductType.prepackaged
    · simp [initialLines, hb]
    · simp [initialLines, hb]
  | click a orderLines next _ ha hstep ih =>
    obtain ⟨next2, h2, hp, hq⟩ := step_keeps_amount_pos a orderLines ha ih.1 ih.2
    rw [hstep] at h2
    cases h2
    exact ⟨hp, hq⟩

/-! ## Lemmas on blueprints -/

theorem find?_id_of_mem_nodup (l : List Product) (hnd : (l.map (fun p => p.id)).Nodup)
    (p : Product) (hp : p ∈ l) : l.find? (fun q => q.id == p.id) = some p := by
  induction l with
  | nil => cases hp
  | cons a as ih =>
    simp only [List.map_cons, List.nodup_cons] at hnd
    rcases List.mem_cons.mp hp with rfl | hmem
    · simp [List.find?_cons]
    · have hne : ¬ a.id = p.id := by
        intro e
        exact hnd.1 (e ▸ List.mem_map_of_mem (fun p => p.id) hmem)
      have hb : (a.id == p.id) = false := by simp [hne]
      simp only [List.find?_cons, hb]
      exact ih hnd.2 hmem

theorem products_ids_nodup : (products.map (fun p => p.id)).Nodup := by decide

theorem findProduct_of_mem {p : Product} (hp : p ∈ products) : findProduct p.id = some p :=
  find?_id_of_mem_nodup products products_ids_nodup p hp

theorem blueprintLines_of (qs : List (Product × Nat)) :
    blueprintLines (qs.map OrderLine.of)
      = Except.ok (qs.map (fun q => ({ id := q.1.id, amount := q.2 } : BlueprintLine))) := by
  induction qs with
  | nil => rfl
  | cons q qs ih => simp only [List.map_cons, blueprintLines, OrderLine.of, ih]

theorem reconstruct_saved (name : String) (qs : List (Product × Nat))
    (hcat : ∀ q ∈ qs, q.1 ∈ products) :
    reconstructOrderLines
        { name := name,
          orderLines := qs.map (fun q => ({ id := q.1.id, amount := q.2 } : BlueprintLine)) }
      = qs.map OrderLine.of := by
  induction qs with
  | nil => rfl
  | cons q qs ih =>
    have h1 := findProduct_of_mem (hcat q (List.mem_cons_self _ _))
    have h2 := ih (fun x hx => hcat x (List.mem_cons_of_mem _ hx))
    simp only [reconstructOrderLines, List.map_cons, List.map_map] at h2 ⊢
    rw [h2]
    simp [OrderLine.of, h1]

/-- C1: for every string of exactly eight decimal digits `d0..d7`,
`validateCustomerNumber` returns true exactly when
`d7 = (10 - (d0*1 + d1*3 + d2*1 + d3*3 + d4*1 + d5*3 + d6*1) mod 10) mod 10`;
`"38429730"` is accepted and `"38429734"` is rejected. -/
theorem validateCustomerNumber_iff_checksum :
    (∀ s : String, IsEightDigits s →
      (validateCustomerNumber s = true ↔
        digitAt s 7 =
          (10 - (digitAt s 0 * 1 + digitAt s 1 * 3 + digitAt s 2 * 1 + digitAt s 3 * 3
            + digitAt s 4 * 1 + digitAt s 5 * 3 + digitAt s 6 * 1) % 10) % 10))
    ∧ validateCustomerNumber "38429730" = true
    ∧ validateCustomerNumber "38429734" = false := by
  refine ⟨?_, by decide, by decide⟩
  intro s ⟨hlen, hdig⟩
  have hd := digitsOf_of_digits s hdig
  obtain ⟨cs⟩ := s
  simp only [String.toList] at hlen hdig hd
  match cs, hlen with
  | [c0, c1, c2, c3, c4, c5, c6, c7], _ =>
    simp only [validateCustomerNumber, hd, weightedSum, digitAt, String.toList]
    simp [List.range, List.range.loop, List.getD]
    constructor
    · intro h; omega
    · intro h; omega

theorem validateCustomerNumber_iff_checksum_witness :
    IsEightDigits "12345678"
    ∧ (validateCustomerNumber "12345678" = true ↔
        digitAt "12345678" 7 =
          (10 - (digitAt "12345678" 0 * 1 + digitAt "12345678" 1 * 3 + digitAt "12345678" 2 * 1
            + digitAt "12345678" 3 * 3 + digitAt "12345678" 4 * 1 + digitAt "12345678" 5 * 3
            + digitAt "12345678" 6 * 1) % 10) % 10) :=
  ⟨by decide, validateCustomerNumber_iff_checksum.1 "12345678" (by decide)⟩

/-- C2 (counterexample): after three clicks on the add button of Butter (price `0.80`)
the order is one line of quantity 3, and `calculateTotals` returns the `totalPrice`
`5404319552844596 / 2^51` (printed `2.4000000000000004`), which is not the exact decimal
sum `3 * 0.80 = 12/5` and not the number that the literal `2.4` denotes. -/
theorem calculateTotals_price_not_exact_sum :
    addItems [7, 7, 7] [] = Except.ok [{ product := findProduct 7, amount := 3 }]
    ∧ calculateTotals [{ product := findProduct 7, amount := 3 }]
        = Except.ok
            ({ totalCal := Binary64.finite (300 * 2 ^ 1074),
               totalPrice := Binary64.finite (5404319552844596 * 2 ^ 1023) },
             [{ product := findProduct 7, amount := 3 }])
    ∧ (Binary64.finite (5404319552844596 * 2 ^ 1023)).isRatio 5404319552844596 (2 ^ 51)
    ∧ ¬ (Binary64.finite (5404319552844596 * 2 ^ 1023)).isRatio 12 5
    ∧ Binary64.finite (5404319552844596 * 2 ^ 1023) ≠ Binary64.round 12 5 := by
  have hc : binary64CalorieSum [(⟨7, "Butter", ProductType.simple, 100, Binary64.round 8 10⟩, 3)]
      = Binary64.finite (300 * 2 ^ 1074) := by decide!
  have hp : binary64PriceSum [(⟨7, "Butter", ProductType.simple, 100, Binary64.round 8 10⟩, 3)]
      = Binary64.finite (5404319552844596 * 2 ^ 1023) := by decide!
  have ht := calculateTotals_of [(⟨7, "Butter", ProductType.simple, 100, Binary64.round 8 10⟩, 3)]
  rw [hc, hp] at ht
  exact ⟨rfl, ht, by decide!, by decide!, by decide!⟩

/-- C2 (amended): for every list of order lines (each a product with a quantity)
`calculateTotals` succeeds, leaves `orderLines` as it was, and returns as `totalCal` and
`totalPrice` the binary64 sums, taken from `0` line by line from the left, of the
binary64 products `calories * amount` and `price * amount`. When calories and amounts
are below `2^53` and the exact calorie sum is below `2^53`, `totalCal` is exactly that
sum. After any sequence of add clicks from the empty order the call succeeds in the same
way on the resulting lines. -/
theorem calculateTotals_binary64_sums (ps : List (Product × Nat)) (ids : List Nat)
    (hids : ∀ id ∈ ids, id ∈ addButtonIds) :
    calculateTotals (ps.map OrderLine.of)
        = Except.ok
            ({ totalCal := binary64CalorieSum ps, totalPrice := binary64PriceSum ps },
             ps.map OrderLine.of)
    ∧ ((∀ pn ∈ ps, pn.1.calories < 2 ^ 53 ∧ pn.2 < 2 ^ 53) →
        (ps.map (fun pn => pn.1.calories * pn.2)).sum < 2 ^ 53 →
        (binary64CalorieSum ps).isRatio (ps.map (fun pn => pn.1.calories * pn.2)).sum 1)
    ∧ ∃ rs : List (Product × Nat),
        addItems ids [] = Except.ok (rs.map OrderLine.of)
        ∧ calculateTotals (rs.map OrderLine.of)
            = Except.ok
                ({ totalCal := binary64CalorieSum rs, totalPrice := binary64PriceSum rs },
                 rs.map OrderLine.of) := by
  refine ⟨calculateTotals_of ps, ?_, ?_⟩
  · intro hfac hsum
    rw [binary64CalorieSum_exact ps hfac hsum]
    simp only [Binary64.isRatio, Nat.mul_one]
  · obtain ⟨rs, hrun, _⟩ := addItems_of ids hids []
    exact ⟨rs, hrun, calculateTotals_of rs⟩

theorem calculateTotals_binary64_sums_witness :
    (∀ id ∈ [4, 5, 4], id ∈ addButtonIds)
    ∧ calculateTotals
          ([(⟨4, "Croissant", ProductType.simple, 250, Binary64.round 22 10⟩, 2),
            (⟨5, "Coffee", ProductType.simple, 5, Binary64.round 35 10⟩, 1)].map OrderLine.of)
        = Except.ok
            ({ totalCal := binary64CalorieSum
                 [(⟨4, "Croissant", ProductType.simple, 250, Binary64.round 22 10⟩, 2),
                  (⟨5, "Coffee", ProductType.simple, 5, Binary64.round 35 10⟩, 1)],
               totalPrice := binary64PriceSum
                 [(⟨4, "Croissant", ProductType.simple, 250, Binary64.round 22 10⟩, 2),
                  (⟨5, "Coffee", ProductType.simple, 5, Binary64.round 35 10⟩, 1)] },
             [(⟨4, "Croissant", ProductType.simple, 250, Binary64.round 22 10⟩, 2),
              (⟨5, "Coffee", ProductType.simple, 5, Binary64.round 35 10⟩, 1)].map OrderLine.of)
    ∧ (binary64CalorieSum
          [(⟨4, "Croissant", ProductType.simple, 250, Binary64.round 22 10⟩, 2),
           (⟨5, "Coffee", ProductType.simple, 5, Binary64.round 35 10⟩, 1)]).isRatio
        (250 * 2 + 5 * 1) 1 := by
  have h := calculateTotals_binary64_sums
    [(⟨4, "Croissant", ProductType.simple, 250, Binary64.round 22 10⟩, 2),
     (⟨5, "Coffee", ProductType.simple, 5, Binary64.round 35 10⟩, 1)] [4, 5, 4] (by decide)
  have hfac : ∀ pn ∈ ([(⟨4, "Croissant", ProductType.simple, 250, Binary64.round 22 10⟩, 2),
      (⟨5, "Coffee", ProductType.simple, 5, Binary64.round 35 10⟩, 1)] : List (Product × Nat)),
      pn.1.calories < 2 ^ 53 ∧ pn.2 < 2 ^ 53 := by
    intro pn hpn
    simp only [List.mem_cons, List.mem_singleton, List.not_mem_nil, or_false] at hpn
    rcases hpn with rfl | rfl
    · exact ⟨by norm_num, by norm_num⟩
    · exact ⟨by norm_num, by norm_num⟩
  have hsum : (([(⟨4, "Croissant", ProductType.simple, 250, Binary64.round 22 10⟩, 2),
      (⟨5, "Coffee", ProductType.simple, 5, Binary64.round 35 10⟩, 1)] : List (Product × Nat)).map
        (fun pn => pn.1.calories * pn.2)).sum = 250 * 2 + 5 * 1 := by
    simp only [List.map_cons, List.map_nil, List.sum_cons, List.sum_nil, Nat.add_zero]
  obtain ⟨htotals, hexact, _⟩ := h
  have hlt : (([(⟨4, "Croissant", ProductType.simple, 250, Binary64.round 22 10⟩, 2),
      (⟨5, "Coffee", ProductType.simple, 5, Binary64.round 35 10⟩, 1)] : List (Product × Nat)).map
        (fun pn => pn.1.calories * pn.2)).sum < 2 ^ 53 := by
    rw [hsum]; norm_num
  have hcal := hexact hfac hlt
  rw [hsum] at hcal
  exact ⟨by decide, htotals, hcal⟩

/-- C3: for every sequence of add clicks applied to an order whose lines hold products
with pairwise distinct ids (the empty order included), the clicks succeed, the resulting
order has no two lines with the same product id, and for every product id the quantity
of its line is the starting quantity (0 if absent) plus the number of add clicks for
that id; two clicks on the same button from the empty order give one line of
quantity 2. -/
theorem addItems_merges_by_product (start : List OrderLine) (ids : List Nat)
    (hprod : ∀ l ∈ start, l.product ≠ none)
    (hdistinct : (start.map OrderLine.productId).Nodup)
    (hids : ∀ id ∈ ids, id ∈ addButtonIds) :
    (∃ final : List OrderLine,
        addItems ids start = Except.ok final
        ∧ (final.map OrderLine.productId).Nodup
        ∧ (∀ l ∈ final, l.product ≠ none)
        ∧ ∀ id, quantityOf id final = quantityOf id start + ids.count id)
    ∧ ∀ id ∈ addButtonIds,
        addItems [id, id] [] = Except.ok [{ product := findProduct id, amount := 2 }] := by
  constructor
  · obtain ⟨qs, rfl⟩ := lines_eq_map_of start hprod
    obtain ⟨rs, hrun, hnd, hq, _⟩ := addItems_of ids hids qs
    exact ⟨rs.map OrderLine.of, hrun,
      (nodup_productId_of rs).mpr (hnd ((nodup_productId_of qs).mp hdistinct)),
      product_ne_none_of rs, hq⟩
  · intro id hid
    obtain ⟨p, hp, _⟩ := findProduct_of_button hid
    have h1 := addItem_of hp []
    have h2 := addItem_of hp (mergeAdd p [])
    simp only [List.map_nil] at h1
    simp only [addItems, h1, h2, hp]
    simp [mergeAdd, OrderLine.of]

theorem addItems_merges_by_product_witness :
    (∃ final : List OrderLine,
        addItems [4, 6, 4] [{ product := findProduct 4, amount := 2 }] = Except.ok final
        ∧ (final.map OrderLine.productId).Nodup
        ∧ (∀ l ∈ final, l.product ≠ none)
        ∧ ∀ id, quantityOf id final
            = quantityOf id [{ product := findProduct 4, amount := 2 }]
              + [4, 6, 4].count id)
    ∧ ∀ id ∈ addButtonIds,
        addItems [id, id] [] = Except.ok [{ product := findProduct id, amount := 2 }] :=
  addItems_merges_by_product [{ product := findProduct 4, amount := 2 }] [4, 6, 4]
    (by decide) (by decide) (by decide)

/-- C4: round trip. For every list of order lines whose products are all entries of the
catalog, the pay handler builds a blueprint, and reconstructing order lines from that
blueprint with the mapping of `handleBlueprintReorder` gives the same (product id,
quantity) pairs in the same order, each line holding the catalog product with that id;
the reconstructed list is the saved list itself, and for a non-empty order the handler
passes it on with the product of the first line as base. -/
theorem blueprint_round_trip (name : String) (lines : List OrderLine)
    (hcat : ∀ l ∈ lines, ∃ p ∈ products, l.product = some p) :
    ∃ blueprint : Blueprint,
      saveBlueprint name lines = Except.ok blueprint
      ∧ (reconstructOrderLines blueprint).map (fun l => (l.productId, l.amount))
          = lines.map (fun l => (l.productId, l.amount))
      ∧ (∀ l ∈ reconstructOrderLines blueprint,
          ∃ p ∈ products, l.product = some p ∧ findProduct p.id = some p)
      ∧ reconstructOrderLines blueprint = lines
      ∧ (lines ≠ [] → ∃ base : Product,
          lines.head?.bind (fun l => l.product) = some base
          ∧ handleBlueprintReorder blueprint = some (base, lines)) := by
  have hprod : ∀ l ∈ lines, l.product ≠ none := by
    intro l hl
    obtain ⟨p, _, hp⟩ := hcat l hl
    simp [hp]
  obtain ⟨qs, rfl⟩ := lines_eq_map_of lines hprod
  have hq : ∀ q ∈ qs, q.1 ∈ products := by
    intro q hq
    obtain ⟨p, hp, hpe⟩ := hcat (OrderLine.of q) (List.mem_map_of_mem _ hq)
    simp only [OrderLine.of, Option.some.injEq] at hpe
    exact hpe ▸ hp
  have hrec := reconstruct_saved name qs hq
  refine ⟨_, by simp only [saveBlueprint, blueprintLines_of], by rw [hrec], ?_, hrec, ?_⟩
  · rw [hrec]
    intro l hl
    obtain ⟨p, hp, hpe⟩ := hcat l hl
    exact ⟨p, hp, hpe, findProduct_of_mem hp⟩
  · intro hne
    cases qs with
    | nil => exact absurd rfl hne
    | cons q qs =>
      refine ⟨q.1, by simp [OrderLine.of], ?_⟩
      simp only [handleBlueprintReorder, hrec]
      simp [OrderLine.of]

theorem blueprint_round_trip_witness :
    ∃ blueprint : Blueprint,
      saveBlueprint "Blueprint #0042"
          [{ product := findProduct 1, amount := 1 }, { product := findProduct 5, amount := 3 }]
        = Except.ok blueprint
      ∧ (reconstructOrderLines blueprint).map (fun l => (l.productId, l.amount))
          = [{ product := findProduct 1, amount := 1 },
              ({ product := findProduct 5, amount := 3 } : OrderLine)].map
              (fun l => (l.productId, l.amount))
      ∧ (∀ l ∈ reconstructOrderLines blueprint,
          ∃ p ∈ products, l.product = some p ∧ findProduct p.id = some p)
      ∧ reconstructOrderLines blueprint
          = [{ product := findProduct 1, amount := 1 }, { product := findProduct 5, amount := 3 }]
      ∧ (([{ product := findProduct 1, amount := 1 },
            { product := findProduct 5, amount := 3 }] : List OrderLine) ≠ [] →
          ∃ base : Product,
            ([{ product := findProduct 1, amount := 1 },
              { product := findProduct 5, amount := 3 }] : List OrderLine).head?.bind
                (fun l => l.product) = some base
            ∧ handleBlueprintReorder blueprint
                = some (base, [{ product := findProduct 1, amount := 1 },
                    { product := findProduct 5, amount := 3 }])) :=
  blueprint_round_trip "Blueprint #0042"
    [{ product := findProduct 1, amount := 1 }, { product := findProduct 5, amount := 3 }]
    (by
      intro l hl
      simp only [List.mem_cons, List.mem_singleton, List.not_mem_nil, or_false] at hl
      rcases hl with rfl | rfl
      · exact ⟨⟨1, "Croissant + Coffee", ProductType.prepackaged, 420, Binary64.round 59 10⟩,
          by simp [products], rfl⟩
      · exact ⟨⟨5, "Coffee", ProductType.simple, 5, Binary64.round 35 10⟩, by simp [products], rfl⟩)

/-- C5 (the code at the failing inputs): for the stored blueprint with lines
`{id: 1, amount: 1}, {id: 99, amount: 2}` the mapping of `handleBlueprintReorder` keeps
the second line with an `undefined` product, the handler passes that list on, and the
first `render` of `OrderBuilder` throws a `TypeError` in `calculateTotals`; when the
unresolvable line comes first the handler returns without opening the order builder. -/
theorem handleBlueprintReorder_stale_line :
    findProduct 99 = none
    ∧ reconstructOrderLines staleBlueprint
        = [{ product := findProduct 1, amount := 1 }, { product := none, amount := 2 }]
    ∧ (∃ base : Product,
        handleBlueprintReorder staleBlueprint
          = some (base, [{ product := findProduct 1, amount := 1 }, { product := none, amount := 2 }])
        ∧ OrderBuilder base
            (some [{ product := findProduct 1, amount := 1 }, { product := none, amount := 2 }])
          = Except.error JsError.typeError)
    ∧ handleBlueprintReorder staleFirstBlueprint = none :=
  ⟨rfl, rfl, ⟨_, rfl, rfl⟩, rfl⟩

/-- C6 (counterexample): the 7-digit identifier `"1234567"` and the 8-digit identifier
`"38429734"` with a wrong check digit get the same error from `loginCustomer`,
`'Invalid checksum'`. -/
theorem loginCustomer_short_same_error_as_checksum :
    (stripNonDigits "1234567").length = 7
    ∧ loginCustomer "1234567" = LoginResult.error "Invalid checksum"
    ∧ IsEightDigits "38429734"
    ∧ loginCustomer "38429734" = LoginResult.error "Invalid checksum"
    ∧ loginCustomer "1234567" = loginCustomer "38429734" := by
  refine ⟨by decide, by decide, by decide, by decide, by decide⟩

/-- C6 (amended): for every identifier whose digit-stripped form does not have exactly
eight digits, `validateCustomerNumber` is false and `loginCustomer` fails with
`'Invalid checksum'`, the error it also gives for a failed checksum; the separate
message `'Please enter exactly 8 digits.'` is given by the login form, for every input
that is not a string of exactly eight digits. -/
theorem loginCustomer_malformed_is_invalid_checksum (s : String)
    (h : (stripNonDigits s).length ≠ 8) :
    validateCustomerNumber s = false
    ∧ loginCustomer s = LoginResult.error "Invalid checksum"
    ∧ (∀ t : String, validateCustomerNumber t = false →
        loginCustomer t = LoginResult.error "Invalid checksum")
    ∧ (∀ t : String, ¬ IsEightDigits t →
        customerLoginClick t = LoginResult.error "Please enter exactly 8 digits.") := by
  have hv := validateCustomerNumber_false_of_length s h
  refine ⟨hv, loginCustomer_of_invalid s hv, loginCustomer_of_invalid, ?_⟩
  intro t ht
  have : ¬ (t.toList.length = 8 ∧ t.toList.all Char.isDigit = true) := by
    intro hc
    exact ht ⟨hc.1, by simpa [List.all_eq_true] using hc.2⟩
  unfold customerLoginClick
  rw [if_neg this]

theorem loginCustomer_malformed_is_invalid_checksum_witness :
    (stripNonDigits "1234567").length ≠ 8
    ∧ validateCustomerNumber "1234567" = false
    ∧ loginCustomer "1234567" = LoginResult.error "Invalid checksum" :=
  ⟨by decide, (loginCustomer_malformed_is_invalid_checksum "1234567" (by decide)).1,
    (loginCustomer_malformed_is_invalid_checksum "1234567" (by decide)).2.1⟩

/-- C7: for every string of exactly eight digits that passes the checksum,
`loginCustomer` returns the customer stored under that string in `mockCustomers` when
there is an entry, and fails with `'Customer not found'` when there is none;
`loginCustomer("38429730")` returns `{name: "Anna Meier", pastOrders: 12}`. -/
theorem loginCustomer_lookup (s : String) (h8 : IsEightDigits s)
    (hvalid : validateCustomerNumber s = true) :
    (∀ c, (s, c) ∈ mockCustomers → loginCustomer s = LoginResult.customer c)
    ∧ ((∀ c, (s, c) ∉ mockCustomers) → loginCustomer s = LoginResult.error "Customer not found")
    ∧ loginCustomer "38429730" = LoginResult.customer { name := "Anna Meier", pastOrders := 12 } := by
  have _ := h8
  rw [loginCustomer_of_valid s hvalid]
  refine ⟨?_, ?_, by decide⟩
  · intro c hc
    simp only [mockCustomers, List.mem_cons, Prod.mk.injEq, List.mem_singleton,
      List.not_mem_nil, or_false] at hc
    rcases hc with ⟨rfl, rfl⟩ | ⟨rfl, rfl⟩
    · rfl
    · rfl
  · intro hnone
    have h1 : s ≠ "38429730" :=
      fun e => hnone { name := "Anna Meier", pastOrders := 12 } (by simp [mockCustomers, e])
    have h2 : s ≠ "12345678" :=
      fun e => hnone { name := "Max Mustermann", pastOrders := 3 } (by simp [mockCustomers, e])
    have b1 : (s == "38429730") = false := by simp [h1]
    have b2 : (s == "12345678") = false := by simp [h2]
    simp only [mockCustomers, List.lookup, b1, b2]

theorem loginCustomer_lookup_witness :
    IsEightDigits "12345678" ∧ validateCustomerNumber "12345678" = true
    ∧ loginCustomer "12345678" = LoginResult.customer { name := "Max Mustermann", pastOrders := 3 } :=
  ⟨by decide, by decide,
    (loginCustomer_lookup "12345678" (by decide) (by decide)).1 _ (by simp [mockCustomers])⟩

/-- C8 (counterexample): `"3842-9730"` strips to `"38429730"` and passes the checksum,
but `loginCustomer("3842-9730")` fails with `'Customer not found'` while
`loginCustomer("38429730")` returns Anna Meier. -/
theorem loginCustomer_unstripped_key_not_found :
    stripNonDigits "3842-9730" = "38429730"
    ∧ validateCustomerNumber "3842-9730" = true
    ∧ loginCustomer "3842-9730" = LoginResult.error "Customer not found"
    ∧ loginCustomer "38429730" = LoginResult.customer { name := "Anna Meier", pastOrders := 12 }
    ∧ loginCustomer "3842-9730" ≠ loginCustomer (stripNonDigits "3842-9730") := by
  refine ⟨by decide, by decide, by decide, by decide, by decide⟩

/-- C8 (amended): for every identifier `s` whose digit-stripped form `t` has exactly
eight digits, `validateCustomerNumber s = validateCustomerNumber t`; `loginCustomer`
looks the customer up under `s` as given: its result is that of `loginCustomer t` when
the checksum fails or when `s` is already a string of eight digits (then `s = t`), and
it is `'Customer not found'` when `s` passes the checksum but differs from `t`. -/
theorem loginCustomer_key_is_raw_identifier (s : String)
    (h : (stripNonDigits s).length = 8) :
    validateCustomerNumber s = validateCustomerNumber (stripNonDigits s)
    ∧ (validateCustomerNumber s = false → loginCustomer s = loginCustomer (stripNonDigits s))
    ∧ (IsEightDigits s → stripNonDigits s = s)
    ∧ (validateCustomerNumber s = true → s ≠ stripNonDigits s →
        loginCustomer s = LoginResult.error "Customer not found")
    ∧ (validateCustomerNumber s = true →
        loginCustomer s =
          match mockCustomers.lookup s with
          | none => LoginResult.error "Customer not found"
          | some customer => LoginResult.customer customer) := by
  have _ := h
  refine ⟨(validateCustomerNumber_strip s).symm, ?_, ?_, ?_, loginCustomer_of_valid s⟩
  · intro hv
    rw [loginCustomer_of_invalid s hv,
      loginCustomer_of_invalid _ ((validateCustomerNumber_strip s).trans hv)]
  · intro h8
    obtain ⟨cs⟩ := s
    simp only [stripNonDigits, String.toList]
    rw [filter_isDigit_of_all cs h8.2]
  · intro hv hne
    rw [loginCustomer_of_valid s hv]
    have h1 : s ≠ "38429730" := by
      intro e; subst e; exact hne (by decide)
    have h2 : s ≠ "12345678" := by
      intro e; subst e; exact hne (by decide)
    have b1 : (s == "38429730") = false := by simp [h1]
    have b2 : (s == "12345678") = false := by simp [h2]
    simp only [mockCustomers, List.lookup, b1, b2]

theorem loginCustomer_key_is_raw_identifier_witness :
    (stripNonDigits "12 34-56 78").length = 8
    ∧ validateCustomerNumber "12 34-56 78" = validateCustomerNumber "12345678"
    ∧ loginCustomer "12 34-56 78" = LoginResult.error "Customer not found" :=
  ⟨by decide, (loginCustomer_key_is_raw_identifier "12 34-56 78" (by decide)).1,
    (loginCustomer_key_is_raw_identifier "12 34-56 78" (by decide)).2.2.2.1
      (by decide) (by decide)⟩

/-- C9 (counterexample): a remove click with an index that is not a position of the
order does not fail: with index 1 on a one-line order the handler completes and the
order is unchanged, and with index -1 on a two-line order it removes the last line. -/
theorem removeItem_out_of_range_no_error :
    removeItem 1 [{ product := findProduct 4, amount := 1 }]
        = Except.ok [{ product := findProduct 4, amount := 1 }]
    ∧ removeItem (-1)
          [{ product := findProduct 4, amount := 1 }, { product := findProduct 5, amount := 2 }]
        = Except.ok [{ product := findProduct 4, amount := 1 }]
    ∧ ∀ (index : Int) (lines : List OrderLine) (e : JsError),
        removeItem index lines ≠ Except.error e := by
  refine ⟨rfl, rfl, ?_⟩
  intro index lines e h
  simp [removeItem] at h

/-- C9 (amended): the remove handler never fails. For an index at or past the end of
the order it leaves the order lines unchanged; for an existing position it removes
exactly the line at that position and keeps the other lines in their order. -/
theorem removeItem_positional (lines : List OrderLine) (i : Nat) :
    (∃ next, removeItem (i : Int) lines = Except.ok next)
    ∧ (lines.length ≤ i → removeItem (i : Int) lines = Except.ok lines)
    ∧ (i < lines.length →
        removeItem (i : Int) lines = Except.ok (lines.take i ++ lines.drop (i + 1))
        ∧ lines.take i ++ lines.drop (i + 1) = lines.eraseIdx i) := by
  refine ⟨⟨_, rfl⟩, ?_, ?_⟩
  · intro h
    simp only [removeItem, splice1_of_ge lines i h]
  · intro h
    refine ⟨by simp only [removeItem, splice1_of_lt lines i h], ?_⟩
    rw [List.eraseIdx_eq_take_drop_succ]

theorem removeItem_positional_witness :
    removeItem 1
        [{ product := findProduct 4, amount := 1 }, { product := findProduct 5, amount := 2 },
          { product := findProduct 6, amount := 1 }]
      = Except.ok
          [{ product := findProduct 4, amount := 1 }, { product := findProduct 6, amount := 1 }] :=
  ((removeItem_positional
      [{ product := findProduct 4, amount := 1 }, { product := findProduct 5, amount := 2 },
        { product := findProduct 6, amount := 1 }] 1).2.2 (by decide)).1

/-- C10: in every order state reachable from the seeding of `OrderBuilder` (empty, or one
prepackaged line of quantity 1) by add and remove clicks on rendered buttons, every line
has quantity at least 1; every such click succeeds, so the reachable states are closed
under the clicks. -/
theorem reachable_amount_pos (lines : List OrderLine) (h : Reachable lines) :
    (∀ l ∈ lines, 1 ≤ l.amount)
    ∧ ∀ a : Action, a.rendered lines →
        ∃ next, step a lines = Except.ok next ∧ Reachable next ∧ ∀ l ∈ next, 1 ≤ l.amount := by
  obtain ⟨hprod, hpos⟩ := reachable_inv lines h
  refine ⟨hpos, ?_⟩
  intro a ha
  obtain ⟨next, hstep, _, hq⟩ := step_keeps_amount_pos a lines ha hprod hpos
  exact ⟨next, hstep, Reachable.click a lines next h ha hstep, hq⟩

theorem reachable_amount_pos_witness :
    Reachable [{ product := findProduct 4, amount := 2 }]
    ∧ ∀ l ∈ [({ product := findProduct 4, amount := 2 } : OrderLine)], 1 ≤ l.amount := by
  have h0 : Reachable [{ product := findProduct 1, amount := 1 }] :=
    Reachable.seed ⟨1, "Croissant + Coffee", ProductType.prepackaged, 420, Binary64.round 59 10⟩
  have h1 : Reachable
      [{ product := findProduct 1, amount := 1 }, { product := findProduct 4, amount := 1 }] :=
    Reachable.click (Action.add 4) _ _ h0 (by decide) rfl
  have h2 : Reachable
      [{ product := findProduct 1, amount := 1 }, { product := findProduct 4, amount := 2 }] :=
    Reachable.click (Action.add 4) _ _ h1 (by decide) rfl
  have h3 : Reachable [{ product := findProduct 4, amount := 2 }] :=
    Reachable.click (Action.remove 0) _ _ h2 (by decide) rfl
  exact ⟨h3, (reachable_amount_pos _ h3).1⟩

/-- C11: initialization policy. For every catalog product selected as the base with no
initial order lines supplied, the order starts as exactly one line of that product with
quantity 1 when the type of the product is `prepackaged`, and starts empty when its
type is `simple`; the first render succeeds with the totals of that order. -/
theorem initialLines_policy (product : Product) (hcat : product ∈ products) :
    (product.type = ProductType.prepackaged →
        initialLines product none = [{ product := some product, amount := 1 }]
        ∧ handleProductSelection product
            = Except.ok ({ totalCal := product.calories, totalPrice := product.price },
                [{ product := some product, amount := 1 }]))
    ∧ (product.type = ProductType.simple →
        initialLines product none = []
        ∧ handleProductSelection product
            = Except.ok ({ totalCal := 0, totalPrice := 0 }, [])) := by
  constructor
  · intro ht
    have hl : initialLines product none = [{ product := some product, amount := 1 }] := by
      simp [initialLines, ht]
    refine ⟨hl, ?_⟩
    have hc := calculateTotals_of [(product, 1)]
    simp only [List.map_cons, List.map_nil, OrderLine.of] at hc
    obtain ⟨hcal, hprice⟩ := catalog_single_line_sums product hcat
    simp only [handleProductSelection, showOrderBuilder, OrderBuilder, hl, hc, hcal, hprice]
  · intro ht
    have hl : initialLines product none = [] := by
      simp [initialLines, ht]
    refine ⟨hl, ?_⟩
    have hc := calculateTotals_of []
    simp only [List.map_nil] at hc
    simp only [handleProductSelection, showOrderBuilder, OrderBuilder, hl, hc]
    rfl

theorem initialLines_policy_witness :
    initialLines ⟨2, "Muesli Bowl", ProductType.prepackaged, 380, Binary64.round 65 10⟩ none
        = [{ product := some ⟨2, "Muesli Bowl", ProductType.prepackaged, 380, Binary64.round 65 10⟩,
             amount := 1 }]
    ∧ initialLines ⟨6, "Ham", ProductType.simple, 80, Binary64.round 12 10⟩ none = [] :=
  ⟨((initialLines_policy ⟨2, "Muesli Bowl", ProductType.prepackaged, 380, Binary64.round 65 10⟩
      (by simp [products])).1 rfl).1,
   ((initialLines_policy ⟨6, "Ham", ProductType.simple, 80, Binary64.round 12 10⟩
      (by simp [products])).2 rfl).1⟩

/-! ## Lemmas on single-digit substitutions -/

theorem isDigit_bounds (c : Char) (h : c.isDigit = true) : 48 ≤ c.toNat ∧ c.toNat ≤ 57 := by
  simp only [Char.isDigit, Bool.and_eq_true, decide_eq_true_eq] at h
  exact ⟨h.1, h.2⟩

theorem char_eq_of_toNat (c e : Char) (h : c.toNat = e.toNat) : c = e := by
  apply Char.ext
  apply UInt32.ext
  exact h

theorem digitChar_spec (d : Nat) (h : d < 10) :
    (Char.ofNat (48 + d)).isDigit = true ∧ (Char.ofNat (48 + d)).toNat = 48 + d := by
  interval_cases d <;> exact ⟨by decide, by decide⟩

theorem list_length_eight {α : Type} (cs : List α) (h : cs.length = 8) :
    ∃ c0 c1 c2 c3 c4 c5 c6 c7, cs = [c0, c1, c2, c3, c4, c5, c6, c7] := by
  match cs, h with
  | [c0, c1, c2, c3, c4, c5, c6, c7], _ => exact ⟨c0, c1, c2, c3, c4, c5, c6, c7, rfl⟩

theorem list_length_seven {α : Type} (cs : List α) (h : cs.length = 7) :
    ∃ c0 c1 c2 c3 c4 c5 c6, cs = [c0, c1, c2, c3, c4, c5, c6] := by
  match cs, h with
  | [c0, c1, c2, c3, c4, c5, c6], _ => exact ⟨c0, c1, c2, c3, c4, c5, c6, rfl⟩

theorem validateCustomerNumber_chars (c0 c1 c2 c3 c4 c5 c6 c7 : Char)
    (hdig : ∀ c ∈ [c0, c1, c2, c3, c4, c5, c6, c7], c.isDigit = true) :
    validateCustomerNumber (String.mk [c0, c1, c2, c3, c4, c5, c6, c7]) = true ↔
      ((c0.toNat - 48) + 3 * (c1.toNat - 48) + (c2.toNat - 48) + 3 * (c3.toNat - 48)
        + (c4.toNat - 48) + 3 * (c5.toNat - 48) + (c6.toNat - 48) + (c7.toNat - 48)) % 10 = 0 := by
  have hd := digitsOf_of_digits (String.mk [c0, c1, c2, c3, c4, c5, c6, c7]) hdig
  have b7 := isDigit_bounds c7 (hdig c7 (by simp))
  simp only [validateCustomerNumber, hd, weightedSum, String.toList]
  simp [List.range, List.range.loop, List.getD]
  constructor
  · intro h; omega
  · intro h; omega

theorem substitution_rejected (c0 c1 c2 c3 c4 c5 c6 c7 e0 e1 e2 e3 e4 e5 e6 e7 : Char)
    (hc : ∀ c ∈ [c0, c1, c2, c3, c4, c5, c6, c7], c.isDigit = true)
    (he : ∀ c ∈ [e0, e1, e2, e3, e4, e5, e6, e7], c.isDigit = true)
    (hacc : validateCustomerNumber (String.mk [c0, c1, c2, c3, c4, c5, c6, c7]) = true)
    (i : Nat) (hi : i < 8)
    (hdiff : [c0, c1, c2, c3, c4, c5, c6, c7].getD i '0' ≠ [e0, e1, e2, e3, e4, e5, e6, e7].getD i '0')
    (hsame : ∀ j, j < 8 → j ≠ i →
      [c0, c1, c2, c3, c4, c5, c6, c7].getD j '0' = [e0, e1, e2, e3, e4, e5, e6, e7].getD j '0') :
    validateCustomerNumber (String.mk [e0, e1, e2, e3, e4, e5, e6, e7]) = false := by
  cases hv : validateCustomerNumber (String.mk [e0, e1, e2, e3, e4, e5, e6, e7]) with
  | false => rfl
  | true =>
    exfalso
    have hA := (validateCustomerNumber_chars c0 c1 c2 c3 c4 c5 c6 c7 hc).mp hacc
    have hB := (validateCustomerNumber_chars e0 e1 e2 e3 e4 e5 e6 e7 he).mp hv
    have bc0 := isDigit_bounds c0 (hc c0 (by simp))
    have bc1 := isDigit_bounds c1 (hc c1 (by simp))
    have bc2 := isDigit_bounds c2 (hc c2 (by simp))
    have bc3 := isDigit_bounds c3 (hc c3 (by simp))
    have bc4 := isDigit_bounds c4 (hc c4 (by simp))
    have bc5 := isDigit_bounds c5 (hc c5 (by simp))
    have bc6 := isDigit_bounds c6 (hc c6 (by simp))
    have bc7 := isDigit_bounds c7 (hc c7 (by simp))
    have be0 := isDigit_bounds e0 (he e0 (by simp))
    have be1 := isDigit_bounds e1 (he e1 (by simp))
    have be2 := isDigit_bounds e2 (he e2 (by simp))
    have be3 := isDigit_bounds e3 (he e3 (by simp))
    have be4 := isDigit_bounds e4 (he e4 (by simp))
    have be5 := isDigit_bounds e5 (he e5 (by simp))
    have be6 := isDigit_bounds e6 (he e6 (by simp))
    have be7 := isDigit_bounds e7 (he e7 (by simp))
    have s0 : 0 ≠ i → c0.toNat = e0.toNat := fun h => congrArg Char.toNat (hsame 0 (by omega) h)
    have s1 : 1 ≠ i → c1.toNat = e1.toNat := fun h => congrArg Char.toNat (hsame 1 (by omega) h)
    have s2 : 2 ≠ i → c2.toNat = e2.toNat := fun h => congrArg Char.toNat (hsame 2 (by omega) h)
    have s3 : 3 ≠ i → c3.toNat = e3.toNat := fun h => congrArg Char.toNat (hsame 3 (by omega) h)
    have s4 : 4 ≠ i → c4.toNat = e4.toNat := fun h => congrArg Char.toNat (hsame 4 (by omega) h)
    have s5 : 5 ≠ i → c5.toNat = e5.toNat := fun h => congrArg Char.toNat (hsame 5 (by omega) h)
    have s6 : 6 ≠ i → c6.toNat = e6.toNat := fun h => congrArg Char.toNat (hsame 6 (by omega) h)
    have s7 : 7 ≠ i → c7.toNat = e7.toNat := fun h => congrArg Char.toNat (hsame 7 (by omega) h)
    have d0 : i = 0 → c0.toNat ≠ e0.toNat := by
      intro h e; subst h; exact hdiff (char_eq_of_toNat _ _ e)
    have d1 : i = 1 → c1.toNat ≠ e1.toNat := by
      intro h e; subst h; exact hdiff (char_eq_of_toNat _ _ e)
    have d2 : i = 2 → c2.toNat ≠ e2.toNat := by
      intro h e; subst h; exact hdiff (char_eq_of_toNat _ _ e)
    have d3 : i = 3 → c3.toNat ≠ e3.toNat := by
      intro h e; subst h; exact hdiff (char_eq_of_toNat _ _ e)
    have d4 : i = 4 → c4.toNat ≠ e4.toNat := by
      intro h e; subst h; exact hdiff (char_eq_of_toNat _ _ e)
    have d5 : i = 5 → c5.toNat ≠ e5.toNat := by
      intro h e; subst h; exact hdiff (char_eq_of_toNat _ _ e)
    have d6 : i = 6 → c6.toNat ≠ e6.toNat := by
      intro h e; subst h; exact hdiff (char_eq_of_toNat _ _ e)
    have d7 : i = 7 → c7.toNat ≠ e7.toNat := by
      intro h e; subst h; exact hdiff (char_eq_of_toNat _ _ e)
    clear hdiff hsame hacc hv hc he
    interval_cases i
    · have := d0 rfl; have := s1 (by decide); have := s2 (by decide); have := s3 (by decide)
      have := s4 (by decide); have := s5 (by decide); have := s6 (by decide)
      have := s7 (by decide); omega
    · have := d1 rfl; have := s0 (by decide); have := s2 (by decide); have := s3 (by decide)
      have := s4 (by decide); have := s5 (by decide); have := s6 (by decide)
      have := s7 (by decide); omega
    · have := d2 rfl; have := s0 (by decide); have := s1 (by decide); have := s3 (by decide)
      have := s4 (by decide); have := s5 (by decide); have := s6 (by decide)
      have := s7 (by decide); omega
    · have := d3 rfl; have := s0 (by decide); have := s1 (by decide); have := s2 (by decide)
      have := s4 (by decide); have := s5 (by decide); have := s6 (by decide)
      have := s7 (by decide); omega
    · have := d4 rfl; have := s0 (by decide); have := s1 (by decide); have := s2 (by decide)
      have := s3 (by decide); have := s5 (by decide); have := s6 (by decide)
      have := s7 (by decide); omega
    · have := d5 rfl; have := s0 (by decide); have := s1 (by decide); have := s2 (by decide)
      have := s3 (by decide); have := s4 (by decide); have := s6 (by decide)
      have := s7 (by decide); omega
    · have := d6 rfl; have := s0 (by decide); have := s1 (by decide); have := s2 (by decide)
      have := s3 (by decide); have := s4 (by decide); have := s5 (by decide)
      have := s7 (by decide); omega
    · have := d7 rfl; have := s0 (by decide); have := s1 (by decide); have := s2 (by decide)
      have := s3 (by decide); have := s4 (by decide); have := s5 (by decide)
      have := s6 (by decide); omega

theorem unique_check_digit (c0 c1 c2 c3 c4 c5 c6 : Char)
    (hp : ∀ c ∈ [c0, c1, c2, c3, c4, c5, c6], c.isDigit = true) :
    ∃! c : Char, c.isDigit = true
      ∧ validateCustomerNumber (String.mk ([c0, c1, c2, c3, c4, c5, c6] ++ [c])) = true := by
  have b0 := isDigit_bounds c0 (hp c0 (by simp))
  have b1 := isDigit_bounds c1 (hp c1 (by simp))
  have b2 := isDigit_bounds c2 (hp c2 (by simp))
  have b3 := isDigit_bounds c3 (hp c3 (by simp))
  have b4 := isDigit_bounds c4 (hp c4 (by simp))
  have b5 := isDigit_bounds c5 (hp c5 (by simp))
  have b6 := isDigit_bounds c6 (hp c6 (by simp))
  have hall : ∀ c : Char, c.isDigit = true →
      ∀ x ∈ [c0, c1, c2, c3, c4, c5, c6, c], x.isDigit = true := by
    intro c hc x hx
    simp only [List.mem_cons, List.mem_singleton, List.not_mem_nil, or_false] at hx
    rcases hx with rfl | rfl | rfl | rfl | rfl | rfl | rfl | rfl
    · exact hp _ (by simp)
    · exact hp _ (by simp)
    · exact hp _ (by simp)
    · exact hp _ (by simp)
    · exact hp _ (by simp)
    · exact hp _ (by simp)
    · exact hp _ (by simp)
    · exact hc
  have hlt : (10 - ((c0.toNat - 48) + 3 * (c1.toNat - 48) + (c2.toNat - 48)
      + 3 * (c3.toNat - 48) + (c4.toNat - 48) + 3 * (c5.toNat - 48) + (c6.toNat - 48)) % 10) % 10
      < 10 := Nat.mod_lt _ (by decide)
  obtain ⟨hcd, hcn⟩ := digitChar_spec _ hlt
  refine ⟨Char.ofNat (48 + (10 - ((c0.toNat - 48) + 3 * (c1.toNat - 48) + (c2.toNat - 48)
      + 3 * (c3.toNat - 48) + (c4.toNat - 48) + 3 * (c5.toNat - 48) + (c6.toNat - 48)) % 10) % 10),
    ⟨hcd, ?_⟩, ?_⟩
  · show validateCustomerNumber (String.mk [c0, c1, c2, c3, c4, c5, c6, _]) = true
    rw [validateCustomerNumber_chars _ _ _ _ _ _ _ _ (hall _ hcd), hcn]
    omega
  · intro c ⟨hc, hv⟩
    apply char_eq_of_toNat
    rw [hcn]
    have hv2 : validateCustomerNumber (String.mk [c0, c1, c2, c3, c4, c5, c6, c]) = true := hv
    rw [validateCustomerNumber_chars _ _ _ _ _ _ _ _ (hall c hc)] at hv2
    have bc := isDigit_bounds c hc
    omega

/-- C12: the checksum detects every single-digit substitution. For every string of
eight digits accepted by `validateCustomerNumber` and every string of eight digits that
differs from it in exactly one position (any of the eight, the check digit included),
`validateCustomerNumber` returns false on the second string; and for every prefix of
seven digits exactly one of the ten digit characters is accepted as check digit. -/
theorem validateCustomerNumber_detects_substitution :
    (∀ (s t : String) (i : Nat), IsEightDigits s → IsEightDigits t →
      validateCustomerNumber s = true → i < 8 →
      s.toList.getD i '0' ≠ t.toList.getD i '0' →
      (∀ j, j < 8 → j ≠ i → s.toList.getD j '0' = t.toList.getD j '0') →
      validateCustomerNumber t = false)
    ∧ (∀ p : String, p.toList.length = 7 → (∀ c ∈ p.toList, c.isDigit = true) →
        ∃! c : Char, c.isDigit = true ∧ validateCustomerNumber (p.push c) = true) := by
  constructor
  · intro s t i hs ht hacc hi hdiff hsame
    obtain ⟨cs⟩ := s
    obtain ⟨es⟩ := t
    obtain ⟨hsl, hsd⟩ := hs
    obtain ⟨htl, htd⟩ := ht
    simp only [String.toList] at hsl hsd htl htd hdiff hsame
    obtain ⟨c0, c1, c2, c3, c4, c5, c6, c7, rfl⟩ := list_length_eight cs hsl
    obtain ⟨e0, e1, e2, e3, e4, e5, e6, e7, rfl⟩ := list_length_eight es htl
    exact substitution_rejected c0 c1 c2 c3 c4 c5 c6 c7 e0 e1 e2 e3 e4 e5 e6 e7
      hsd htd hacc i hi hdiff hsame
  · intro p hlen hdig
    obtain ⟨cs⟩ := p
    simp only [String.toList] at hlen hdig
    obtain ⟨c0, c1, c2, c3, c4, c5, c6, rfl⟩ := list_length_seven cs hlen
    exact unique_check_digit c0 c1 c2 c3 c4 c5 c6 hdig

theorem validateCustomerNumber_detects_substitution_witness :
    IsEightDigits "38429730" ∧ IsEightDigits "38129730"
    ∧ validateCustomerNumber "38429730" = true
    ∧ "38429730".toList.getD 2 '0' ≠ "38129730".toList.getD 2 '0'
    ∧ validateCustomerNumber "38129730" = false :=
  ⟨by decide, by decide, by decide, by decide,
    validateCustomerNumber_detects_substitution.1 "38429730" "38129730" 2
      (by decide) (by decide) (by decide) (by decide) (by decide) (by decide)⟩

end EarlyBird
